import Mathlib

/-!
Shallow embedding of the Mixture-of-Experts orchestrator
(`src/orchestrator.py`, class `MoEOrchestrator`).

Python floats are modelled by `ℚ`; wall-clock instants by `ℕ` supplied by the
caller; Python exceptions by `Except String`; Python dicts by association
lists in insertion order.  The individual agents live outside the routing
core (module `agents`, not part of the source tree): the Router consumes them
only through the capability contract of spec §6, which the `Agent` structure
states (`can_handle` and `process_request` may raise, `name` and the
capability tags are plain data).
-/

/-- A JSON-like value, enough to express the payloads the Router itself
builds (fallback data, error data, `orchestrator_metadata`). -/
inductive Val where
  | str : String → Val
  | num : ℚ → Val
  | boolean : Bool → Val
  | strList : List String → Val
  | capMap : List (String × List String) → Val
  | dict : List (String × Val) → Val

/-- Context mapping: string keys to the string values the Router inspects. -/
abbrev Ctx := List (String × String)

/-- Modelled from the spec: `AgentRequest` is defined in the external
`agents` module; spec §3 gives `{query, context?, user_id?, session_id?}`,
immutable once constructed. -/
structure AgentRequest where
  query : String
  context : Option Ctx
  user_id : Option String
  session_id : Option String

/-- Modelled from the spec: `AgentResponse` is defined in the external
`agents` module; spec §3 gives `{success, message, data?, agent_type,
timestamp}`.  The `timestamp` field is set by whoever constructs the
response and is never read by the Router, so it is omitted here. -/
structure AgentResponse where
  success : Bool
  message : String
  data : Option (List (String × Val))
  agent_type : String

/-- The capability surface of one agent, as consumed by the Router
(spec §6): a stable name, capability tags, a fallible admissibility check
and a fallible processing operation. -/
structure Agent where
  name : String
  capabilities : List String
  can_handle : String → Except String Bool
  process_request : AgentRequest → Except String AgentResponse

/-- One entry of the History Ledger (`_log_request` appends these). -/
structure HistoryRecord where
  query : String
  agent : String
  success : Bool
  timestamp : ℕ
deriving DecidableEq

/-- Router state: the registered agents keyed by their registration name, in
registration order (Python dict preserves insertion order), and the History
Ledger `request_history`. -/
structure Orchestrator where
  agents : List (String × Agent)
  history : List HistoryRecord

/-- Python `str.lower()`, written over the character list so that it
evaluates by kernel reduction. -/
def pyLower (s : String) : String :=
  ⟨s.data.map Char.toLower⟩

/-- Python `s[:n]`, written over the character list. -/
def pyTake (s : String) (n : ℕ) : String :=
  ⟨s.data.take n⟩

/-- Worker for `pySplit`: `cur` holds the characters of the word being
built, in reverse. -/
def splitWSAux : List Char → List Char → List String
  | [], cur => if cur = [] then [] else [⟨cur.reverse⟩]
  | c :: cs, cur =>
    if c.isWhitespace then
      if cur = [] then splitWSAux cs [] else ⟨cur.reverse⟩ :: splitWSAux cs []
    else splitWSAux cs (c :: cur)

/-- Python `str.split()`: split on whitespace runs, discarding empty
pieces. -/
def pySplit (s : String) : List String :=
  splitWSAux s.data []

/-- `listPrefixOf p l` is true when `p` is an initial segment of `l`. -/
def listPrefixOf : List Char → List Char → Bool
  | [], _ => true
  | _ :: _, [] => false
  | a :: as, b :: bs => a == b && listPrefixOf as bs

/-- `listInfixOf p l`: `p` occurs contiguously inside `l`
(Python's `p in l` on strings; the empty pattern always matches). -/
def listInfixOf : List Char → List Char → Bool
  | p, [] => listPrefixOf p []
  | p, c :: cs => listPrefixOf p (c :: cs) || listInfixOf p cs

/-- Python `needle in hay` for strings: substring test. -/
def substrOf (needle hay : String) : Bool :=
  listInfixOf needle.data hay.data

/-- Python `min(a, b)`, written as an explicit comparison so that it
evaluates by kernel reduction (`pyMin_eq_min` relates it to `min`). -/
def pyMin (a b : ℚ) : ℚ :=
  if a ≤ b then a else b

/-- `_get_historical_performance`: success rate of the agent over its ledger
entries, `0.5` when the ledger or the agent's slice of it is empty. -/
def get_historical_performance (history : List HistoryRecord) (agent_name : String) : ℚ :=
  if history = [] then 1/2
  else
    let agent_history := history.filter (fun r => r.agent == agent_name)
    if agent_history = [] then 1/2
    else (agent_history.countP (fun r => r.success) : ℚ) / (agent_history.length : ℚ)

/-- The match counter of `_calculate_agent_confidence` (lines 176-179):
count capability tags with at least one word occurring in the lowered
query.  `caps` arrives already lowered, `query_lower` already lowered,
exactly as in the source. -/
def keyword_matches (caps : List String) (query_lower : String) : ℕ :=
  caps.countP (fun cap => (pySplit cap).any (fun w => substrOf w query_lower))

/-- The boost added for `keyword_matches` many matching tags. -/
def keyword_boost (caps : List String) (query_lower : String) : ℚ :=
  if keyword_matches caps query_lower > 0 then
    pyMin (3/10) ((keyword_matches caps query_lower : ℚ) * (1/10))
  else 0

/-- One `if "<key>" in context and context["<key>"] in agent_capabilities`
block of `_calculate_agent_confidence` (lines 186-190): case-sensitive key
lookup, and the value compared, verbatim, against the already-lowered
capability tags. -/
def key_boost (caps : List String) (c : Ctx) (key : String) : ℚ :=
  match c.lookup key with
  | some v => if caps.contains v then (1/5 : ℚ) else 0
  | none => 0

/-- The context block of `_calculate_agent_confidence` (lines 184-190):
`if context:` guards the whole block (both `None` and the empty mapping are
falsy), then the two key blocks apply. -/
def context_boost (caps : List String) (context : Option Ctx) : ℚ :=
  match context with
  | none => 0
  | some c =>
    if c = [] then 0
    else key_boost caps c "analysis_type" + key_boost caps c "report_type"

/-- The historical block of `_calculate_agent_confidence` (lines 192-195). -/
def historical_boost (history : List HistoryRecord) (agent_name : String) : ℚ :=
  if get_historical_performance history agent_name > 4/5 then 1/10 else 0

/-- `_calculate_agent_confidence`: base 0.5 plus the three boosts, capped at
1.0.  The three `confidence +=` blocks of the source commute, so they are
written as a sum of the three block functions above. -/
def calculate_agent_confidence (ag : Agent) (query : String) (context : Option Ctx)
    (history : List HistoryRecord) : ℚ :=
  let caps := ag.capabilities.map pyLower
  pyMin 1 (1/2 + keyword_boost caps (pyLower query) + context_boost caps context
            + historical_boost history ag.name)

/-- One row of the `agent_scores` table built by `_select_best_agent`. -/
structure ScoreData where
  agent : Agent
  confidence : ℚ
  can_handle : Bool

/-- The per-agent body of `_select_best_agent`'s scoring loop
(lines 118-144): a raising or false `can_handle` scores
`(0.0, can_handle := false)`, a true one scores the computed confidence. -/
def score_agent (ag : Agent) (query : String) (context : Option Ctx)
    (history : List HistoryRecord) : ScoreData :=
  match ag.can_handle query with
  | .ok true => ⟨ag, calculate_agent_confidence ag query context history, true⟩
  | .ok false => ⟨ag, 0, false⟩
  | .error _ => ⟨ag, 0, false⟩

/-- The selection loop of `_select_best_agent` (lines 146-154): running best
agent and best confidence, updated only on `can_handle ∧ confidence >
best_confidence` (strict, so the first of equals is kept). -/
def select_loop : List ScoreData → Option Agent → ℚ → Option Agent
  | [], best, _ => best
  | sd :: rest, best, best_confidence =>
    if sd.can_handle = true ∧ best_confidence < sd.confidence then
      select_loop rest (some sd.agent) sd.confidence
    else
      select_loop rest best best_confidence

/-- `_select_best_agent`: score every registered agent, then sweep for the
highest-confidence admissible one, starting from `(None, 0.0)`. -/
def select_best_agent (agents : List (String × Agent)) (query : String)
    (context : Option Ctx) (history : List HistoryRecord) : Option Agent :=
  select_loop (agents.map (fun p => score_agent p.2 query context history)) none 0

/-- `_log_request`: append a record with the query truncated to 100
characters, then keep only the last 1000 records. -/
def log_request (history : List HistoryRecord) (query : String) (agent_name : String)
    (success : Bool) (t : ℕ) : List HistoryRecord :=
  let h := history ++ [⟨pyTake query 100, agent_name, success, t⟩]
  if h.length > 1000 then h.drop (h.length - 1000) else h

/-- `_create_fallback_response` (lines 232-245). -/
def create_fallback_response (agents : List (String × Agent)) : AgentResponse :=
  { success := false
    message := "I\x27m sorry, but I couldn\x27t find a suitable agent to handle your request. Please try rephrasing your query or contact support."
    agent_type := "MoEOrchestrator"
    data := some [("available_agents", .strList (agents.map (fun p => p.1))),
                  ("agent_capabilities", .capMap (agents.map (fun p => (p.1, p.2.capabilities))))] }

/-- `_create_error_response` (lines 247-254). -/
def create_error_response (error_message : String) : AgentResponse :=
  { success := false
    message := "An error occurred while processing your request: " ++ error_message
    agent_type := "MoEOrchestrator"
    data := some [("error", .str error_message)] }

/-- `_calculate_routing_confidence` (lines 199-205): a second, post-hoc
`can_handle` call; this one is *not* guarded per-agent, so its exception
propagates (to `process_query`'s top-level handler). -/
def calculate_routing_confidence (ag : Agent) (query : String) : Except String ℚ :=
  match ag.can_handle query with
  | .ok true => .ok (4/5)
  | .ok false => .ok (3/10)
  | .error e => .error e

/-- Python dict assignment `d[k] = v`: replace the value when the key is
present, append the pair otherwise. -/
def setKey (d : List (String × Val)) (k : String) (v : Val) : List (String × Val) :=
  if d.any (fun p => p.1 == k) then
    d.map (fun p => if p.1 == k then (k, v) else p)
  else d ++ [(k, v)]

/-- The `orchestrator_metadata` object merged into the response
(lines 89-95).  `dur` stands for the wall-clock duration
`(now - start_time).total_seconds()`. -/
def orchestrator_metadata (ag : Agent) (routing_confidence : ℚ) (dur : ℚ) : Val :=
  .dict [("selected_agent", .str ag.name),
         ("agent_capabilities", .strList ag.capabilities),
         ("routing_confidence", .num routing_confidence),
         ("processing_time", .num dur)]

/-- Lines 89-95: `response.data = response.data or {}` followed by
`response.data["orchestrator_metadata"] = {...}`. -/
def annotate (resp : AgentResponse) (ag : Agent) (routing_confidence : ℚ) (dur : ℚ) :
    AgentResponse :=
  let d := resp.data.getD []
  { resp with data := some (setKey d "orchestrator_metadata"
      (orchestrator_metadata ag routing_confidence dur)) }

/-- `process_query` (lines 44-102).  The `try`/`except` is rendered by the
match cascade: the two fallible steps inside the `try` are the selected
agent's `process_request` and the second `can_handle` call inside
`_calculate_routing_confidence`; an error from either lands in the
`except`-arm `create_error_response`, with whatever ledger mutation had
already happened kept (the `_log_request` append precedes the second
`can_handle` call).  `t` is the instant `datetime.now()` recorded by
`_log_request`; `dur` the measured processing duration.  The result pairs
the response with the ledger after the call. -/
def process_query (o : Orchestrator) (query : String) (context : Option Ctx)
    (user_id session_id : Option String) (t : ℕ) (dur : ℚ) :
    AgentResponse × List HistoryRecord :=
  let request : AgentRequest := ⟨query, context, user_id, session_id⟩
  match select_best_agent o.agents query context o.history with
  | none => (create_fallback_response o.agents, o.history)
  | some ag =>
    match ag.process_request request with
    | .error e => (create_error_response e, o.history)
    | .ok resp =>
      let h := log_request o.history query ag.name resp.success t
      match calculate_routing_confidence ag query with
      | .error e => (create_error_response e, h)
      | .ok rc => (annotate resp ag rc dur, h)

/-- The `relevant_agents` loop of `process_multi_agent_query`
(lines 316-319): `agent.can_handle(query)` is called with *no* per-agent
`try`, so a raising check aborts the whole call. -/
def collect_relevant (agents : List (String × Agent)) (query : String) :
    Except String (List Agent) :=
  match agents with
  | [] => .ok []
  | (_, ag) :: rest =>
    match ag.can_handle query with
    | .error e => .error e
    | .ok true =>
      match collect_relevant rest query with
      | .error e => .error e
      | .ok l => .ok (ag :: l)
    | .ok false => collect_relevant rest query

/-- The dispatch loop of `process_multi_agent_query` (lines 321-328): each
relevant agent is invoked under its own `try`; a raising `process_request`
is logged and skipped. -/
def fanout_loop (relevant : List Agent) (query : String) (context : Option Ctx)
    (acc : List AgentResponse) : List AgentResponse :=
  match relevant with
  | [] => acc
  | ag :: rest =>
    match ag.process_request ⟨query, context, none, none⟩ with
    | .ok r => fanout_loop rest query context (acc ++ [r])
    | .error _ => fanout_loop rest query context acc

/-- `process_multi_agent_query` (lines 298-330). -/
def process_multi_agent_query (o : Orchestrator) (query : String) (context : Option Ctx) :
    Except String (List AgentResponse) :=
  match collect_relevant o.agents query with
  | .error e => .error e
  | .ok relevant => .ok (fanout_loop relevant query context [])

/-- One entry of `agent_performance` in the statistics view. -/
structure AgentPerformance where
  total_requests : ℕ
  success_rate : ℚ
  last_used : ℕ
deriving DecidableEq

/-- One entry of `recent_activity` in the statistics view. -/
structure ActivityEntry where
  query : String
  agent : String
  success : Bool
  timestamp : ℕ
deriving DecidableEq

/-- The record returned by `get_orchestrator_stats`. -/
structure OrchestratorStats where
  total_requests : ℕ
  agent_performance : List (String × AgentPerformance)
  recent_activity : List ActivityEntry

/-- Python `max(...)` over the (nonempty) timestamps of a slice of the
ledger. -/
def maxTimestamp (l : List HistoryRecord) : ℕ :=
  l.foldl (fun m r => max m r.timestamp) 0

/-- `get_orchestrator_stats` (lines 263-296): a pure read of the ledger
(the source only filters and folds `self.request_history`; purity in this
embedding is the fact that the function takes no state out).  ISO-format
timestamp rendering is kept as the instant itself. -/
def get_orchestrator_stats (o : Orchestrator) : OrchestratorStats :=
  if o.history = [] then ⟨0, [], []⟩
  else
    let perf := o.agents.filterMap (fun p =>
      let agent_requests := o.history.filter (fun r => r.agent == p.1)
      if agent_requests = [] then none
      else some (p.1,
        ⟨agent_requests.length,
         (agent_requests.countP (fun r => r.success) : ℚ) / (agent_requests.length : ℚ),
         maxTimestamp agent_requests⟩))
    ⟨o.history.length, perf,
     (o.history.drop (o.history.length - 10)).map
       (fun r => ⟨r.query, r.agent, r.success, r.timestamp⟩)⟩

/-! ## Basic lemmas about the scoring arithmetic -/

theorem pyMin_eq_min (a b : ℚ) : pyMin a b = min a b :=
  (min_def a b).symm

theorem keyword_boost_nonneg (caps : List String) (q : String) :
    0 ≤ keyword_boost caps q := by
  unfold keyword_boost
  rw [pyMin_eq_min]
  split_ifs with h
  · exact le_min (by norm_num) (by positivity)
  · exact le_refl 0

theorem key_boost_nonneg (caps : List String) (c : Ctx) (key : String) :
    0 ≤ key_boost caps c key := by
  unfold key_boost
  rcases c.lookup key with _ | v
  · exact le_refl 0
  · dsimp only
    split_ifs <;> norm_num

theorem context_boost_nonneg (caps : List String) (context : Option Ctx) :
    0 ≤ context_boost caps context := by
  rcases context with _ | c
  · exact le_refl 0
  · simp only [context_boost]
    split_ifs
    · exact le_refl 0
    · have h₁ := key_boost_nonneg caps c "analysis_type"
      have h₂ := key_boost_nonneg caps c "report_type"
      linarith

theorem historical_boost_nonneg (history : List HistoryRecord) (name : String) :
    0 ≤ historical_boost history name := by
  unfold historical_boost
  split_ifs <;> norm_num

theorem confidence_ge_half (ag : Agent) (query : String) (context : Option Ctx)
    (history : List HistoryRecord) :
    1/2 ≤ calculate_agent_confidence ag query context history := by
  unfold calculate_agent_confidence
  rw [pyMin_eq_min]
  refine le_min (by norm_num) ?_
  have h₁ := keyword_boost_nonneg (ag.capabilities.map pyLower) (pyLower query)
  have h₂ := context_boost_nonneg (ag.capabilities.map pyLower) context
  have h₃ := historical_boost_nonneg history ag.name
  linarith

theorem confidence_le_one (ag : Agent) (query : String) (context : Option Ctx)
    (history : List HistoryRecord) :
    calculate_agent_confidence ag query context history ≤ 1 := by
  unfold calculate_agent_confidence
  rw [pyMin_eq_min]
  exact min_le_left _ _

/-! ## C3: confidence bounds during selection -/

/-- C3: for every agent, query, context and ledger snapshot, the confidence
recorded for the agent in `_select_best_agent`'s scoring table lies in
`[0.5, 1.0]` when the agent's admissibility check returns `true`, and is
exactly `0.0` when the check returns `false` or raises. -/
theorem score_confidence_bounds (ag : Agent) (query : String) (context : Option Ctx)
    (history : List HistoryRecord) :
    (ag.can_handle query = .ok true →
      1/2 ≤ (score_agent ag query context history).confidence ∧
        (score_agent ag query context history).confidence ≤ 1)
    ∧ (ag.can_handle query ≠ .ok true →
      (score_agent ag query context history).confidence = 0) := by
  constructor
  · intro h
    unfold score_agent
    rw [h]
    exact ⟨confidence_ge_half ag query context history, confidence_le_one ag query context history⟩
  · intro h
    unfold score_agent
    rcases hch : ag.can_handle query with e | b
    · rfl
    · cases b
      · rfl
      · exact absurd hch h

/-- A concrete agent whose `process_request` raises. -/
def agentBoom : Agent :=
  ⟨"boom", ["pay"], fun _ => .ok true, fun _ => .error "boom"⟩

/-- A concrete agent whose admissibility check returns `false`. -/
def agentNo : Agent :=
  ⟨"no", [], fun _ => .ok false, fun _ => .error "unreachable"⟩

/-- Witness for C3 at two concrete agents: an admissible one scores inside
`[0.5, 1]`, an inadmissible one scores `0`. -/
theorem score_confidence_bounds_witness :
    (1/2 ≤ (score_agent agentBoom "q" none []).confidence ∧
      (score_agent agentBoom "q" none []).confidence ≤ 1)
    ∧ (score_agent agentNo "q" none []).confidence = 0 :=
  ⟨(score_confidence_bounds agentBoom "q" none []).1 rfl,
   (score_confidence_bounds agentNo "q" none []).2 (by simp [agentNo])⟩

/-! ## C2: ledger bound and FIFO eviction -/

theorem log_request_length_le (h : List HistoryRecord) (q n : String) (s : Bool) (t : ℕ)
    (hb : h.length ≤ 1000) : (log_request h q n s t).length ≤ 1000 := by
  simp only [log_request]
  split_ifs with hgt
  · simp only [List.length_drop, List.length_append, List.length_singleton] at hgt ⊢
    omega
  · simp only [List.length_append, List.length_singleton] at hgt ⊢
    omega

/-- One completed routing decision, as the data `_log_request` receives:
query, agent name, agent-reported success, and the instant. -/
def decisionRecord (d : String × String × Bool × ℕ) : HistoryRecord :=
  ⟨pyTake d.1 100, d.2.1, d.2.2.1, d.2.2.2⟩

/-- Running `_log_request` over a sequence of completed routing decisions. -/
def run_log (h : List HistoryRecord) (ds : List (String × String × Bool × ℕ)) :
    List HistoryRecord :=
  ds.foldl (fun acc d => log_request acc d.1 d.2.1 d.2.2.1 d.2.2.2) h

theorem run_log_append (h : List HistoryRecord) (ds : List (String × String × Bool × ℕ))
    (d : String × String × Bool × ℕ) :
    run_log h (ds ++ [d]) = log_request (run_log h ds) d.1 d.2.1 d.2.2.1 d.2.2.2 := by
  unfold run_log
  rw [List.foldl_append]
  rfl

theorem run_log_nil_eq (ds : List (String × String × Bool × ℕ)) :
    run_log [] ds = (ds.map decisionRecord).drop ((ds.map decisionRecord).length - 1000) := by
  induction ds using List.reverseRecOn with
  | nil => rfl
  | append_singleton ds d ih =>
    rw [run_log_append, ih]
    simp only [List.map_append, List.map_cons, List.map_nil, log_request]
    have hr : (⟨pyTake d.1 100, d.2.1, d.2.2.1, d.2.2.2⟩ : HistoryRecord) = decisionRecord d :=
      rfl
    rw [hr]
    set m := ds.map decisionRecord with hm
    set n := m.length with hn
    set r := decisionRecord d with hrr
    have hdl : (m.drop (n - 1000)).length = n - (n - 1000) := by
      rw [List.length_drop, hn]
    have hal : (m.drop (n - 1000) ++ [r]).length = n - (n - 1000) + 1 := by
      rw [List.length_append, hdl, List.length_singleton]
    have hml : (m ++ [r]).length = n + 1 := by
      rw [List.length_append, List.length_singleton, hn]
    simp only [hal, hml]
    split_ifs with hc
    · have h1 : n - (n - 1000) + 1 - 1000 = 1 := by omega
      rw [h1]
      rw [List.drop_append_of_le_length (show 1 ≤ (m.drop (n - 1000)).length by omega)]
      rw [List.drop_append_of_le_length (show n + 1 - 1000 ≤ m.length by omega)]
      rw [List.drop_drop]
      have h3 : n - 1000 + 1 = n + 1 - 1000 := by omega
      rw [h3]
    · have h0 : n - 1000 = 0 := by omega
      have h2 : n + 1 - 1000 = 0 := by omega
      rw [h0, h2]
      simp

/-- C2: the History Ledger never exceeds 1000 records across `process_query`
calls, and eviction is FIFO: 1001 sequential completed routing decisions
starting from an empty ledger leave exactly the most recent 1000 records,
in append order (the oldest decision's record is dropped). -/
theorem ledger_bound_and_fifo :
    (∀ (o : Orchestrator) (query : String) (context : Option Ctx)
        (uid sid : Option String) (t : ℕ) (dur : ℚ),
        o.history.length ≤ 1000 →
        (process_query o query context uid sid t dur).2.length ≤ 1000)
    ∧ ∀ ds : List (String × String × Bool × ℕ), ds.length = 1001 →
        run_log [] ds = (ds.map decisionRecord).drop 1 := by
  constructor
  · intro o query context uid sid t dur hb
    unfold process_query
    rcases select_best_agent o.agents query context o.history with _ | ag
    · exact hb
    · dsimp only
      rcases ag.process_request ⟨query, context, uid, sid⟩ with e | resp
      · exact hb
      · dsimp only
        rcases calculate_routing_confidence ag query with e | rc
        · exact log_request_length_le _ _ _ _ _ hb
        · exact log_request_length_le _ _ _ _ _ hb
  · intro ds hlen
    rw [run_log_nil_eq ds]
    have hl : (ds.map decisionRecord).length - 1000 = 1 := by
      rw [List.length_map, hlen]
    rw [hl]

/-- Witness for C2: the bound-preservation applied to the empty
orchestrator, and the FIFO equation applied to 1001 copies of one
decision. -/
theorem ledger_bound_and_fifo_witness :
    (process_query ⟨[], []⟩ "q" none none none 0 0).2.length ≤ 1000
    ∧ run_log [] (List.replicate 1001 ("q", "a", true, 0)) =
        ((List.replicate 1001 ("q", "a", true, 0)).map decisionRecord).drop 1 :=
  ⟨ledger_bound_and_fifo.1 ⟨[], []⟩ "q" none none none 0 0 (by simp),
   ledger_bound_and_fifo.2 (List.replicate 1001 ("q", "a", true, 0))
     (by rw [List.length_replicate])⟩

/-! ## Lemmas about scoring rows and the selection loop -/

theorem score_agent_agent (ag : Agent) (q : String) (ctx : Option Ctx)
    (hist : List HistoryRecord) : (score_agent ag q ctx hist).agent = ag := by
  unfold score_agent
  rcases ag.can_handle q with e | b
  · rfl
  · cases b <;> rfl

theorem score_agent_can_handle_iff (ag : Agent) (q : String) (ctx : Option Ctx)
    (hist : List HistoryRecord) :
    (score_agent ag q ctx hist).can_handle = true ↔ ag.can_handle q = .ok true := by
  unfold score_agent
  rcases h : ag.can_handle q with e | b
  · simp
  · cases b <;> simp

theorem score_agent_confidence_of_admissible (ag : Agent) (q : String) (ctx : Option Ctx)
    (hist : List HistoryRecord) (h : ag.can_handle q = .ok true) :
    (score_agent ag q ctx hist).confidence = calculate_agent_confidence ag q ctx hist := by
  unfold score_agent
  rw [h]

/-- Characterization of the selection loop: either no row ever displaced the
running best (and every admissible row's confidence is at most the starting
best confidence), or the loop's final answer is the row of the *last*
update, which beats the start strictly, beats every admissible row before it
strictly, and is at least every admissible row after it. -/
theorem select_loop_char (l : List ScoreData) (best : Option Agent) (bc : ℚ) :
    (select_loop l best bc = best ∧ ∀ sd ∈ l, sd.can_handle = true → sd.confidence ≤ bc)
    ∨ (∃ pre sd post, l = pre ++ sd :: post
        ∧ select_loop l best bc = some sd.agent
        ∧ sd.can_handle = true
        ∧ bc < sd.confidence
        ∧ (∀ b ∈ pre, b.can_handle = true → b.confidence < sd.confidence)
        ∧ (∀ b ∈ post, b.can_handle = true → b.confidence ≤ sd.confidence)) := by
  induction l generalizing best bc with
  | nil =>
    left
    exact ⟨rfl, by simp⟩
  | cons sd rest ih =>
    by_cases hc : sd.can_handle = true ∧ bc < sd.confidence
    · have hsel : select_loop (sd :: rest) best bc =
          select_loop rest (some sd.agent) sd.confidence := by
        simp only [select_loop]
        rw [if_pos hc]
      rcases ih (some sd.agent) sd.confidence with ⟨h1, h2⟩ |
        ⟨pre, sd', post, heq, hres, hch, hlt, hpre, hpost⟩
      · right
        exact ⟨[], sd, rest, by simp, by rw [hsel, h1], hc.1, hc.2, by simp, h2⟩
      · right
        refine ⟨sd :: pre, sd', post, by rw [heq]; rfl, by rw [hsel, hres], hch,
          lt_trans hc.2 hlt, ?_, hpost⟩
        intro b hb hbch
        rcases List.mem_cons.mp hb with rfl | hb'
        · exact hlt
        · exact hpre b hb' hbch
    · have hsel : select_loop (sd :: rest) best bc = select_loop rest best bc := by
        simp only [select_loop]
        rw [if_neg hc]
      rcases ih best bc with ⟨h1, h2⟩ |
        ⟨pre, sd', post, heq, hres, hch, hlt, hpre, hpost⟩
      · left
        refine ⟨by rw [hsel, h1], ?_⟩
        intro b hb hbch
        rcases List.mem_cons.mp hb with rfl | hb'
        · by_contra hgt
          exact hc ⟨hbch, lt_of_not_le hgt⟩
        · exact h2 b hb' hbch
      · right
        refine ⟨sd :: pre, sd', post, by rw [heq]; rfl, by rw [hsel, hres], hch, hlt, ?_, hpost⟩
        intro b hb hbch
        rcases List.mem_cons.mp hb with rfl | hb'
        · have hble : b.confidence ≤ bc := by
            by_contra hgt
            exact hc ⟨hbch, lt_of_not_le hgt⟩
          exact lt_of_le_of_lt hble hlt
        · exact hpre b hb' hbch

/-- The scoring table's rows are exactly `score_agent` applied to their own
`.agent` field. -/
theorem scores_row_form (agents : List (String × Agent)) (q : String) (ctx : Option Ctx)
    (hist : List HistoryRecord) :
    ∀ x ∈ agents.map (fun p => score_agent p.2 q ctx hist),
      x = score_agent x.agent q ctx hist := by
  intro x hx
  rcases List.mem_map.mp hx with ⟨p, _, rfl⟩
  rw [score_agent_agent]

/-- `_select_best_agent` returns `None` exactly when no registered agent's
admissibility check returns `true`. -/
theorem select_best_agent_eq_none_iff (agents : List (String × Agent)) (q : String)
    (ctx : Option Ctx) (hist : List HistoryRecord) :
    select_best_agent agents q ctx hist = none ↔
      ∀ p ∈ agents, p.2.can_handle q ≠ .ok true := by
  constructor
  · intro hnone p hp hadm
    rcases select_loop_char (agents.map (fun p => score_agent p.2 q ctx hist)) none 0 with
      ⟨_, h2⟩ | ⟨pre, sd, post, _, hres, _, _, _, _⟩
    · have hmem : score_agent p.2 q ctx hist ∈
          agents.map (fun p => score_agent p.2 q ctx hist) :=
        List.mem_map.mpr ⟨p, hp, rfl⟩
      have hch : (score_agent p.2 q ctx hist).can_handle = true :=
        (score_agent_can_handle_iff p.2 q ctx hist).mpr hadm
      have hle := h2 _ hmem hch
      rw [score_agent_confidence_of_admissible p.2 q ctx hist hadm] at hle
      have hge := confidence_ge_half p.2 q ctx hist
      linarith
    · unfold select_best_agent at hnone
      rw [hnone] at hres
      exact Option.noConfusion hres
  · intro hall
    unfold select_best_agent
    have hrows : ∀ sd ∈ agents.map (fun p => score_agent p.2 q ctx hist),
        sd.can_handle = false := by
      intro sd hmem
      rcases List.mem_map.mp hmem with ⟨p, hp, rfl⟩
      rcases hb : (score_agent p.2 q ctx hist).can_handle with _ | _
      · rfl
      · exact absurd ((score_agent_can_handle_iff p.2 q ctx hist).mp hb) (hall p hp)
    generalize agents.map (fun p => score_agent p.2 q ctx hist) = l at hrows
    induction l with
    | nil => rfl
    | cons sd rest ih =>
      have hsd : sd.can_handle = false := hrows sd (List.mem_cons_self sd rest)
      simp only [select_loop]
      rw [if_neg (by simp [hsd])]
      exact ih (fun b hb => hrows b (List.mem_cons_of_mem sd hb))

/-! ## C5: deterministic selection with first-registered tie-break -/

/-- C5: agent selection is a pure function of
`(agents, query, context, ledger)` — two invocations with identical inputs
trivially coincide in this embedding — and the selected agent is the *first*
registered admissible agent of maximal confidence: every admissible agent
registered before it has strictly smaller confidence (only a strictly
greater confidence displaces the running best), and every admissible agent
registered after it has confidence at most the winner's. -/
theorem select_best_agent_first_max (agents : List (String × Agent)) (q : String)
    (ctx : Option Ctx) (hist : List HistoryRecord) (ag : Agent)
    (hsel : select_best_agent agents q ctx hist = some ag) :
    ∃ pre post, agents.map (fun p => p.2) = pre ++ ag :: post
      ∧ ag.can_handle q = .ok true
      ∧ (∀ b ∈ pre, b.can_handle q = .ok true →
          calculate_agent_confidence b q ctx hist < calculate_agent_confidence ag q ctx hist)
      ∧ (∀ b ∈ post, b.can_handle q = .ok true →
          calculate_agent_confidence b q ctx hist ≤ calculate_agent_confidence ag q ctx hist) := by
  have hform := scores_row_form agents q ctx hist
  rcases select_loop_char (agents.map (fun p => score_agent p.2 q ctx hist)) none 0 with
    ⟨h1, _⟩ | ⟨pre, sd, post, heq, hres, hch, _, hpre, hpost⟩
  · unfold select_best_agent at hsel
    rw [hsel] at h1
    exact Option.noConfusion h1
  · unfold select_best_agent at hsel
    rw [hsel] at hres
    have hag : ag = sd.agent := Option.some_inj.mp hres
    have hsd_mem : sd ∈ agents.map (fun p => score_agent p.2 q ctx hist) := by
      rw [heq]
      exact List.mem_append_right pre (List.mem_cons_self sd post)
    have hsd_form : sd = score_agent sd.agent q ctx hist := hform sd hsd_mem
    have hadm : ag.can_handle q = .ok true := by
      rw [hag]
      exact (score_agent_can_handle_iff sd.agent q ctx hist).mp (by rw [← hsd_form]; exact hch)
    have hadm' : sd.agent.can_handle q = .ok true := hag ▸ hadm
    have hsd_conf : sd.confidence = calculate_agent_confidence ag q ctx hist := by
      rw [hag]
      conv_lhs => rw [hsd_form]
      exact score_agent_confidence_of_admissible sd.agent q ctx hist hadm'

    refine ⟨pre.map ScoreData.agent, post.map ScoreData.agent, ?_, hadm, ?_, ?_⟩
    · have hmm : agents.map (fun p => p.2) =
          (agents.map (fun p => score_agent p.2 q ctx hist)).map ScoreData.agent := by
        rw [List.map_map]
        exact List.map_congr_left (fun p _ => (score_agent_agent p.2 q ctx hist).symm)
      rw [hmm, heq, List.map_append, List.map_cons, hag]
    · intro b hb hbadm
      rcases List.mem_map.mp hb with ⟨sdb, hsdb, rfl⟩
      have hsdb_mem : sdb ∈ agents.map (fun p => score_agent p.2 q ctx hist) := by
        rw [heq]
        exact List.mem_append_left _ hsdb
      have hsdb_form := hform sdb hsdb_mem
      have hsdb_ch : sdb.can_handle = true := by
        rw [hsdb_form]
        exact (score_agent_can_handle_iff sdb.agent q ctx hist).mpr hbadm
      have := hpre sdb hsdb hsdb_ch
      rw [hsd_conf] at this
      rw [hsdb_form, score_agent_confidence_of_admissible sdb.agent q ctx hist hbadm] at this
      exact this
    · intro b hb hbadm
      rcases List.mem_map.mp hb with ⟨sdb, hsdb, rfl⟩
      have hsdb_mem : sdb ∈ agents.map (fun p => score_agent p.2 q ctx hist) := by
        rw [heq]
        exact List.mem_append_right _ (List.mem_cons_of_mem sd hsdb)
      have hsdb_form := hform sdb hsdb_mem
      have hsdb_ch : sdb.can_handle = true := by
        rw [hsdb_form]
        exact (score_agent_can_handle_iff sdb.agent q ctx hist).mpr hbadm
      have := hpost sdb hsdb hsdb_ch
      rw [hsd_conf] at this
      rw [hsdb_form, score_agent_confidence_of_admissible sdb.agent q ctx hist hbadm] at this
      exact this

/-- The orchestrator that registers only `agentBoom`. -/
def oBoom : Orchestrator := ⟨[("boom", agentBoom)], []⟩

theorem agentBoom_confidence : calculate_agent_confidence agentBoom "q" none [] = 1/2 := by
  have hk : keyword_matches (List.map pyLower agentBoom.capabilities) (pyLower "q") = 0 := by
    decide
  norm_num [calculate_agent_confidence, keyword_boost, context_boost, historical_boost,
    get_historical_performance, hk, pyMin]

theorem select_oBoom : select_best_agent oBoom.agents "q" none [] = some agentBoom := by
  have hch : agentBoom.can_handle "q" = .ok true := rfl
  norm_num [select_best_agent, oBoom, score_agent, hch, select_loop, agentBoom_confidence]

/-- Witness for C5 at a concrete one-agent registry. -/
theorem select_best_agent_first_max_witness :
    ∃ pre post, oBoom.agents.map (fun p => p.2) = pre ++ agentBoom :: post
      ∧ agentBoom.can_handle "q" = .ok true
      ∧ (∀ b ∈ pre, b.can_handle "q" = .ok true →
          calculate_agent_confidence b "q" none [] < calculate_agent_confidence agentBoom "q" none [])
      ∧ (∀ b ∈ post, b.can_handle "q" = .ok true →
          calculate_agent_confidence b "q" none [] ≤ calculate_agent_confidence agentBoom "q" none []) :=
  select_best_agent_first_max oBoom.agents "q" none [] agentBoom select_oBoom

/-! ## Case equations for `process_query` -/

theorem process_query_eq_fallback (o : Orchestrator) (q : String) (ctx : Option Ctx)
    (uid sid : Option String) (t : ℕ) (dur : ℚ)
    (hsel : select_best_agent o.agents q ctx o.history = none) :
    process_query o q ctx uid sid t dur = (create_fallback_response o.agents, o.history) := by
  unfold process_query
  rw [hsel]

theorem process_query_eq_error_of_pr (o : Orchestrator) (q : String) (ctx : Option Ctx)
    (uid sid : Option String) (t : ℕ) (dur : ℚ) (ag : Agent) (e : String)
    (hsel : select_best_agent o.agents q ctx o.history = some ag)
    (hpr : ag.process_request ⟨q, ctx, uid, sid⟩ = .error e) :
    process_query o q ctx uid sid t dur = (create_error_response e, o.history) := by
  unfold process_query
  rw [hsel]
  simp only [hpr]

theorem process_query_eq_error_of_rc (o : Orchestrator) (q : String) (ctx : Option Ctx)
    (uid sid : Option String) (t : ℕ) (dur : ℚ) (ag : Agent) (resp : AgentResponse) (e : String)
    (hsel : select_best_agent o.agents q ctx o.history = some ag)
    (hpr : ag.process_request ⟨q, ctx, uid, sid⟩ = .ok resp)
    (hrc : calculate_routing_confidence ag q = .error e) :
    process_query o q ctx uid sid t dur =
      (create_error_response e, log_request o.history q ag.name resp.success t) := by
  unfold process_query
  rw [hsel]
  simp only [hpr, hrc]

theorem process_query_eq_ok (o : Orchestrator) (q : String) (ctx : Option Ctx)
    (uid sid : Option String) (t : ℕ) (dur : ℚ) (ag : Agent) (resp : AgentResponse) (rc : ℚ)
    (hsel : select_best_agent o.agents q ctx o.history = some ag)
    (hpr : ag.process_request ⟨q, ctx, uid, sid⟩ = .ok resp)
    (hrc : calculate_routing_confidence ag q = .ok rc) :
    process_query o q ctx uid sid t dur =
      (annotate resp ag rc dur, log_request o.history q ag.name resp.success t) := by
  unfold process_query
  rw [hsel]
  simp only [hpr, hrc]

/-! ## C1: the fallback invariant -/

theorem setKey_key_mem (d : List (String × Val)) (k : String) (v : Val) :
    k ∈ (setKey d k v).map Prod.fst := by
  unfold setKey
  split_ifs with h
  · rcases List.any_eq_true.mp h with ⟨p, hp, hpk⟩
    have : (if p.1 == k then (k, v) else p) ∈
        d.map (fun p => if p.1 == k then (k, v) else p) := List.mem_map_of_mem _ hp
    rw [if_pos hpk] at this
    exact List.mem_map_of_mem Prod.fst this
  · simp

theorem process_query_oBoom :
    process_query oBoom "q" none none none 0 0 = (create_error_response "boom", []) :=
  process_query_eq_error_of_pr oBoom "q" none none none 0 0 agentBoom "boom" select_oBoom rfl

/-- C1 counterexample: `agentBoom` is admissible for `"q"`, yet
`process_query` returns a response with `success = false` and
`agent_type = "MoEOrchestrator"` (the *error* response produced when the
selected agent's `process_request` raises), so the claimed
`success=false ∧ agent_type="MoEOrchestrator"` pair does *not* imply that no
registered agent was admissible. -/
theorem fallback_pair_cex :
    agentBoom.can_handle "q" = .ok true
    ∧ (process_query oBoom "q" none none none 0 0).1.success = false
    ∧ (process_query oBoom "q" none none none 0 0).1.agent_type = "MoEOrchestrator" := by
  refine ⟨rfl, ?_, ?_⟩ <;> rw [process_query_oBoom] <;> rfl

/-- C1 amended: `process_query` returns exactly the *fallback response* if
and only if no registered agent's admissibility check returns `true`; the
plain pair `success=false ∧ agent_type="MoEOrchestrator"` does not
characterize this situation, because the error response carries the same
pair. -/
theorem fallback_response_iff_no_admissible (o : Orchestrator) (q : String)
    (ctx : Option Ctx) (uid sid : Option String) (t : ℕ) (dur : ℚ) :
    (process_query o q ctx uid sid t dur).1 = create_fallback_response o.agents
    ↔ ∀ p ∈ o.agents, p.2.can_handle q ≠ .ok true := by
  constructor
  · intro h
    rcases hsel : select_best_agent o.agents q ctx o.history with _ | ag
    · exact (select_best_agent_eq_none_iff o.agents q ctx o.history).mp hsel
    · exfalso
      rcases hpr : ag.process_request ⟨q, ctx, uid, sid⟩ with e | resp
      · rw [process_query_eq_error_of_pr o q ctx uid sid t dur ag e hsel hpr] at h
        have hdata := congrArg AgentResponse.data h
        simp [create_error_response, create_fallback_response] at hdata
      · rcases hrc : calculate_routing_confidence ag q with e | rc
        · rw [process_query_eq_error_of_rc o q ctx uid sid t dur ag resp e hsel hpr hrc] at h
          have hdata := congrArg AgentResponse.data h
          simp [create_error_response, create_fallback_response] at hdata
        · rw [process_query_eq_ok o q ctx uid sid t dur ag resp rc hsel hpr hrc] at h
          have hdata := congrArg AgentResponse.data h
          simp only [annotate, create_fallback_response, Option.some_inj] at hdata
          have hkeys := congrArg (List.map Prod.fst) hdata
          have hmem := setKey_key_mem (resp.data.getD []) "orchestrator_metadata"
            (orchestrator_metadata ag rc dur)
          rw [hkeys] at hmem
          simp at hmem
  · intro hall
    rw [process_query_eq_fallback o q ctx uid sid t dur
      ((select_best_agent_eq_none_iff o.agents q ctx o.history).mpr hall)]

/-! ## C7: exceptions are converted to structured error responses -/

/-- C7: `process_query` is a total function in this embedding (it never
propagates an exception), and whenever one of the two fallible steps of its
pipeline raises — the selected agent's `process_request`, or the post-hoc
admissibility check inside `_calculate_routing_confidence` — the returned
response is exactly the structured error response: `success = false`,
`agent_type = "MoEOrchestrator"`, a message embedding the exception text,
and `data = {error: text}`. -/
theorem process_query_error_conversion (o : Orchestrator) (q : String) (ctx : Option Ctx)
    (uid sid : Option String) (t : ℕ) (dur : ℚ) (ag : Agent) (e : String)
    (hsel : select_best_agent o.agents q ctx o.history = some ag)
    (herr : ag.process_request ⟨q, ctx, uid, sid⟩ = .error e
      ∨ ∃ resp, ag.process_request ⟨q, ctx, uid, sid⟩ = .ok resp ∧ ag.can_handle q = .error e) :
    (process_query o q ctx uid sid t dur).1 = create_error_response e
    ∧ (process_query o q ctx uid sid t dur).1.success = false
    ∧ (process_query o q ctx uid sid t dur).1.agent_type = "MoEOrchestrator"
    ∧ (process_query o q ctx uid sid t dur).1.message =
        "An error occurred while processing your request: " ++ e
    ∧ (process_query o q ctx uid sid t dur).1.data = some [("error", Val.str e)] := by
  have hres : (process_query o q ctx uid sid t dur).1 = create_error_response e := by
    rcases herr with hpr | ⟨resp, hpr, hch⟩
    · rw [process_query_eq_error_of_pr o q ctx uid sid t dur ag e hsel hpr]
    · have hrc : calculate_routing_confidence ag q = .error e := by
        unfold calculate_routing_confidence
        rw [hch]
      rw [process_query_eq_error_of_rc o q ctx uid sid t dur ag resp e hsel hpr hrc]
  exact ⟨hres, by rw [hres]; rfl, by rw [hres]; rfl, by rw [hres]; rfl, by rw [hres]; rfl⟩

/-- Witness for C7 at the concrete raising agent. -/
theorem process_query_error_conversion_witness :
    (process_query oBoom "q" none none none 0 0).1 = create_error_response "boom"
    ∧ (process_query oBoom "q" none none none 0 0).1.success = false
    ∧ (process_query oBoom "q" none none none 0 0).1.agent_type = "MoEOrchestrator"
    ∧ (process_query oBoom "q" none none none 0 0).1.message =
        "An error occurred while processing your request: " ++ "boom"
    ∧ (process_query oBoom "q" none none none 0 0).1.data = some [("error", Val.str "boom")] :=
  process_query_error_conversion oBoom "q" none none none 0 0 agentBoom "boom"
    select_oBoom (Or.inl rfl)

/-! ## C10: ledger atomicity of the fallback and error paths -/

/-- C10: a `HistoryRecord` is appended only after the selected agent's
`process_request` returns a response: when no agent is admissible (fallback
response) or when the selected agent's `process_request` raises (error
response), the ledger is exactly the one before the call; and whenever
`process_request` does return a response, the resulting ledger is exactly
`_log_request` applied to the prior ledger (even if the later metadata step
raises). -/
theorem ledger_atomicity :
    (∀ (o : Orchestrator) (q : String) (ctx : Option Ctx) (uid sid : Option String)
        (t : ℕ) (dur : ℚ),
      (match select_best_agent o.agents q ctx o.history with
       | none => True
       | some ag => ∃ e, ag.process_request ⟨q, ctx, uid, sid⟩ = .error e) →
      (process_query o q ctx uid sid t dur).2 = o.history)
    ∧ (∀ (o : Orchestrator) (q : String) (ctx : Option Ctx) (uid sid : Option String)
        (t : ℕ) (dur : ℚ) (ag : Agent) (resp : AgentResponse),
        select_best_agent o.agents q ctx o.history = some ag →
        ag.process_request ⟨q, ctx, uid, sid⟩ = .ok resp →
        (process_query o q ctx uid sid t dur).2 =
          log_request o.history q ag.name resp.success t) := by
  constructor
  · intro o q ctx uid sid t dur h
    rcases hsel : select_best_agent o.agents q ctx o.history with _ | ag
    · rw [process_query_eq_fallback o q ctx uid sid t dur hsel]
    · rw [hsel] at h
      rcases h with ⟨e, hpr⟩
      rw [process_query_eq_error_of_pr o q ctx uid sid t dur ag e hsel hpr]
  · intro o q ctx uid sid t dur ag resp hsel hpr
    rcases hrc : calculate_routing_confidence ag q with e | rc
    · rw [process_query_eq_error_of_rc o q ctx uid sid t dur ag resp e hsel hpr hrc]
    · rw [process_query_eq_ok o q ctx uid sid t dur ag resp rc hsel hpr hrc]

/-- A response a well-behaved agent returns. -/
def respOK : AgentResponse := ⟨true, "done", none, "A"⟩

/-- A concrete agent whose `process_request` returns normally. -/
def agentOK : Agent := ⟨"ok", [], fun _ => .ok true, fun _ => .ok respOK⟩

/-- The orchestrator that registers only `agentOK`. -/
def oOK : Orchestrator := ⟨[("ok", agentOK)], []⟩

theorem agentOK_confidence : calculate_agent_confidence agentOK "q" none [] = 1/2 := by
  have hk : keyword_matches (List.map pyLower agentOK.capabilities) (pyLower "q") = 0 := by
    decide
  norm_num [calculate_agent_confidence, keyword_boost, context_boost, historical_boost,
    get_historical_performance, hk, pyMin]

theorem select_oOK : select_best_agent oOK.agents "q" none [] = some agentOK := by
  have hch : agentOK.can_handle "q" = .ok true := rfl
  norm_num [select_best_agent, oOK, score_agent, hch, select_loop, agentOK_confidence]

/-- Witness for C10: the empty registry leaves the (empty) ledger unchanged,
and a normally-returning agent's call appends exactly one record. -/
theorem ledger_atomicity_witness :
    (process_query ⟨[], []⟩ "q" none none none 0 0).2 = ([] : List HistoryRecord)
    ∧ (process_query oOK "q" none none none 0 0).2 =
        log_request [] "q" agentOK.name respOK.success 0 :=
  ⟨ledger_atomicity.1 ⟨[], []⟩ "q" none none none 0 0 trivial,
   ledger_atomicity.2 oOK "q" none none none 0 0 agentOK respOK select_oOK rfl⟩

/-! ## C8: the keyword boost formula -/

/-- C8: the keyword boost added to an agent's confidence equals
`min 0.3 (matches × 0.1)`, where `matches` counts the agent's capability
*tags* (not individual words) for which at least one whitespace-separated
word of the (lowercased) tag is a substring of the lowercased query — i.e.
a case-insensitive substring match; and a tag whose every word is absent
from the query contributes nothing to the count. -/
theorem keyword_boost_formula (caps : List String) (q : String) :
    keyword_boost (caps.map pyLower) (pyLower q)
      = min (3/10) ((caps.countP (fun tag =>
          (pySplit (pyLower tag)).any (fun w => substrOf w (pyLower q))) : ℚ) * (1/10))
    ∧ ∀ tag, (∀ w ∈ pySplit (pyLower tag), substrOf w (pyLower q) = false) →
        keyword_boost ((tag :: caps).map pyLower) (pyLower q)
          = keyword_boost (caps.map pyLower) (pyLower q) := by
  have hcnt : ∀ cs : List String, keyword_matches (cs.map pyLower) (pyLower q)
      = cs.countP (fun tag => (pySplit (pyLower tag)).any (fun w => substrOf w (pyLower q))) := by
    intro cs
    unfold keyword_matches
    rw [List.countP_map]
    rfl
  constructor
  · unfold keyword_boost
    rw [hcnt caps]
    by_cases h : caps.countP (fun tag =>
        (pySplit (pyLower tag)).any (fun w => substrOf w (pyLower q))) = 0
    · rw [if_neg (by omega), h]
      norm_num
    · rw [if_pos (by omega), pyMin_eq_min]
  · intro tag htag
    have hp : (pySplit (pyLower tag)).any (fun w => substrOf w (pyLower q)) = false := by
      rw [List.any_eq_false]
      intro w hw
      rw [htag w hw]
      simp
    unfold keyword_boost
    rw [hcnt caps, hcnt (tag :: caps), List.countP_cons_of_neg _ _ (by simp [hp])]

/-- Witness for C8 at a concrete capability list and query. -/
theorem keyword_boost_formula_witness :
    keyword_boost (["pay"].map pyLower) (pyLower "q")
      = min (3/10) ((["pay"].countP (fun tag =>
          (pySplit (pyLower tag)).any (fun w => substrOf w (pyLower "q"))) : ℚ) * (1/10))
    ∧ keyword_boost (("zz" :: ["pay"]).map pyLower) (pyLower "q")
        = keyword_boost (["pay"].map pyLower) (pyLower "q") :=
  ⟨(keyword_boost_formula ["pay"] "q").1,
   (keyword_boost_formula ["pay"] "q").2 "zz" (by decide)⟩

/-! ## C4: the context boost is only half case-insensitive -/

/-- A concrete agent with the single capability tag `"summary"`. -/
def agentA : Agent :=
  ⟨"A", ["summary"], fun _ => .ok true, fun _ => .ok respOK⟩

/-- C4 counterexample: `"SUMMARY"` differs from the capability tag
`"summary"` only in letter case, yet the context `{analysis_type:
"SUMMARY"}` earns *no* boost — the confidence equals the one computed with
no context at all, `0.5`, not the `0.7` the claim's case-insensitive
comparison would give.  The context value is compared verbatim against the
*lowercased* tags (`context["analysis_type"] in [cap.lower() ...]`), so
only the tag's case is ignored, not the value's. -/
theorem context_boost_case_cex :
    pyLower "SUMMARY" = pyLower "summary"
    ∧ calculate_agent_confidence agentA "zzz" (some [("analysis_type", "SUMMARY")]) [] =
        calculate_agent_confidence agentA "zzz" none []
    ∧ calculate_agent_confidence agentA "zzz" none [] = 1/2 := by
  have hk : keyword_matches (List.map pyLower agentA.capabilities) (pyLower "zzz") = 0 := by
    decide
  have hcon : ¬∃ a ∈ agentA.capabilities, pyLower a = "SUMMARY" := by
    decide
  have hlk : List.lookup "analysis_type" [("analysis_type", "SUMMARY")] = some "SUMMARY" := by
    decide
  have hlk2 : List.lookup "report_type" [("analysis_type", "SUMMARY")] = none := by
    decide
  refine ⟨rfl, ?_, ?_⟩ <;>
    norm_num [calculate_agent_confidence, keyword_boost, context_boost, key_boost,
      historical_boost, get_historical_performance, pyMin, hk, hcon, hlk, hlk2]

/-- C4 amended: the per-key context boost of 0.2 applies exactly when the
(case-sensitively looked-up) context value equals, *verbatim*, the
lowercased form of one of the agent's capability tags: the tag's case is
ignored, the context value's case is significant.  Both keys may apply
independently, for up to +0.4 in total. -/
theorem context_boost_amended (ag : Agent) (q : String) (hist : List HistoryRecord)
    (c : Ctx) (hne : c ≠ []) :
    calculate_agent_confidence ag q (some c) hist
      = pyMin 1 (1/2 + keyword_boost (ag.capabilities.map pyLower) (pyLower q)
          + ((match c.lookup "analysis_type" with
              | some v => if v ∈ ag.capabilities.map pyLower then (1/5 : ℚ) else 0
              | none => 0)
            + (match c.lookup "report_type" with
              | some v => if v ∈ ag.capabilities.map pyLower then (1/5 : ℚ) else 0
              | none => 0))
          + historical_boost hist ag.name) := by
  have hkb : ∀ key, key_boost (ag.capabilities.map pyLower) c key =
      (match c.lookup key with
       | some v => if v ∈ ag.capabilities.map pyLower then (1/5 : ℚ) else 0
       | none => 0) := by
    intro key
    unfold key_boost
    rcases c.lookup key with _ | v
    · rfl
    · dsimp only
      by_cases hv : v ∈ ag.capabilities.map pyLower
      · rw [if_pos (List.elem_iff.mpr hv), if_pos hv]
      · rw [if_neg (fun hc => hv (List.elem_iff.mp hc)), if_neg hv]
  simp only [calculate_agent_confidence, context_boost]
  rw [if_neg hne, hkb "analysis_type", hkb "report_type"]

/-- Witness for C4's amended statement at the counterexample's input. -/
theorem context_boost_amended_witness :
    calculate_agent_confidence agentA "zzz" (some [("analysis_type", "SUMMARY")]) []
      = pyMin 1 (1/2 + keyword_boost (agentA.capabilities.map pyLower) (pyLower "zzz")
          + ((match List.lookup "analysis_type" [("analysis_type", "SUMMARY")] with
              | some v => if v ∈ agentA.capabilities.map pyLower then (1/5 : ℚ) else 0
              | none => 0)
            + (match List.lookup "report_type" [("analysis_type", "SUMMARY")] with
              | some v => if v ∈ agentA.capabilities.map pyLower then (1/5 : ℚ) else 0
              | none => 0))
          + historical_boost [] agentA.name) :=
  context_boost_amended agentA "zzz" [] [("analysis_type", "SUMMARY")] (by simp)

/-! ## C6: fan-out isolation -/

/-- `can_handle` returns `.ok true`, as a boolean. -/
def admissibleB (ag : Agent) (q : String) : Bool :=
  match ag.can_handle q with
  | .ok true => true
  | _ => false

/-- A concrete agent whose *admissibility check* raises. -/
def agentRaiseCH : Agent :=
  ⟨"raise-ch", [], fun _ => .error "chboom", fun _ => .ok respOK⟩

/-- C6 counterexample: in `process_multi_agent_query` the admissibility
filter calls `agent.can_handle(query)` with no per-agent `try` (line 318),
so a single agent whose `can_handle` raises aborts the entire call — the
call throws instead of returning partial results. -/
theorem fanout_cex :
    process_multi_agent_query ⟨[("r", agentRaiseCH)], []⟩ "q" none = .error "chboom" := rfl

theorem collect_relevant_ok (agents : List (String × Agent)) (q : String)
    (hch : ∀ p ∈ agents, ∃ b, p.2.can_handle q = .ok b) :
    collect_relevant agents q =
      .ok ((agents.map (fun p => p.2)).filter (fun ag => admissibleB ag q)) := by
  induction agents with
  | nil => rfl
  | cons p rest ih =>
    have ⟨b, hb⟩ := hch p (List.mem_cons_self p rest)
    have ihrest := ih (fun p' hp' => hch p' (List.mem_cons_of_mem p hp'))
    simp only [collect_relevant, List.map_cons, List.filter_cons]
    rcases p with ⟨k, ag⟩
    dsimp only at hb ⊢
    rw [hb]
    cases b
    · have hadm : admissibleB ag q = false := by
        unfold admissibleB
        rw [hb]
      rw [hadm]
      simpa using ihrest
    · have hadm : admissibleB ag q = true := by
        unfold admissibleB
        rw [hb]
      rw [hadm]
      dsimp only
      rw [ihrest]
      simp

theorem fanout_loop_eq (relevant : List Agent) (q : String) (ctx : Option Ctx)
    (acc : List AgentResponse) :
    fanout_loop relevant q ctx acc =
      acc ++ relevant.filterMap (fun ag => (ag.process_request ⟨q, ctx, none, none⟩).toOption) := by
  induction relevant generalizing acc with
  | nil => simp [fanout_loop]
  | cons ag rest ih =>
    simp only [fanout_loop, List.filterMap_cons]
    rcases hpr : ag.process_request ⟨q, ctx, none, none⟩ with e | r
    · dsimp only
      rw [ih acc]
      rfl
    · dsimp only
      rw [ih (acc ++ [r])]
      simp [Except.toOption]

theorem length_eq_countP_add_countP_not {α : Type} (l : List α) (p : α → Bool) :
    l.countP p + l.countP (fun a => !(p a)) = l.length := by
  induction l with
  | nil => rfl
  | cons a t ih =>
    rcases h : p a with _ | _
    · rw [List.countP_cons_of_neg _ _ (by simp [h]), List.countP_cons_of_pos _ _ (by simp [h]),
        List.length_cons]
      omega
    · rw [List.countP_cons_of_pos _ _ (by simp [h]), List.countP_cons_of_neg _ _ (by simp [h]),
        List.length_cons]
      omega

/-- C6 amended: provided no registered agent's *admissibility check* raises,
`process_multi_agent_query` returns normally; an agent whose
`process_request` raises has its contribution omitted while every other
admissible agent's response is still returned (the result is exactly the
in-order responses of the admissible agents whose `process_request`
returned), so when at most one agent raises the result count is at least
(admissible agents − 1).  Without that proviso the claim fails: a raising
`can_handle` aborts the whole call (see the counterexample). -/
theorem fanout_isolation_amended (o : Orchestrator) (q : String) (ctx : Option Ctx)
    (hch : ∀ p ∈ o.agents, ∃ b, p.2.can_handle q = .ok b) :
    ∃ rs, process_multi_agent_query o q ctx = .ok rs
      ∧ rs = ((o.agents.map (fun p => p.2)).filter (fun ag => admissibleB ag q)).filterMap
          (fun ag => (ag.process_request ⟨q, ctx, none, none⟩).toOption)
      ∧ (((o.agents.map (fun p => p.2)).filter (fun ag => admissibleB ag q)).countP
            (fun ag => !(ag.process_request ⟨q, ctx, none, none⟩).toOption.isSome) ≤ 1 →
          ((o.agents.map (fun p => p.2)).filter (fun ag => admissibleB ag q)).length - 1
            ≤ rs.length) := by
  refine ⟨_, ?_, rfl, ?_⟩
  · unfold process_multi_agent_query
    rw [collect_relevant_ok o.agents q hch]
    dsimp only
    rw [fanout_loop_eq]
    rfl
  · intro hone
    rw [List.length_filterMap_eq_countP]
    have hsum := length_eq_countP_add_countP_not
      ((o.agents.map (fun p => p.2)).filter (fun ag => admissibleB ag q))
      (fun ag => (ag.process_request ⟨q, ctx, none, none⟩).toOption.isSome)
    omega

/-- Witness for C6's amended statement at a concrete one-agent registry. -/
theorem fanout_isolation_amended_witness :
    ∃ rs, process_multi_agent_query oOK "q" none = .ok rs
      ∧ rs = ((oOK.agents.map (fun p => p.2)).filter (fun ag => admissibleB ag "q")).filterMap
          (fun ag => (ag.process_request ⟨"q", none, none, none⟩).toOption)
      ∧ (((oOK.agents.map (fun p => p.2)).filter (fun ag => admissibleB ag "q")).countP
            (fun ag => !(ag.process_request ⟨"q", none, none, none⟩).toOption.isSome) ≤ 1 →
          ((oOK.agents.map (fun p => p.2)).filter (fun ag => admissibleB ag "q")).length - 1
            ≤ rs.length) :=
  fanout_isolation_amended oOK "q" none (by
    intro p hp
    have hp' : p = ("ok", agentOK) := List.mem_singleton.mp hp
    rw [hp']
    exact ⟨true, rfl⟩)

/-! ## C9: the statistics view is a pure read of the ledger -/

/-- C9: `get_orchestrator_stats` is a pure function of the orchestrator
state in this embedding (it takes no state out, mirroring the source, which
only reads `self.request_history`).  For every ledger state:
`total_requests` is the ledger length; `recent_activity` is the last (up
to) 10 ledger entries in ledger order (oldest of those first); and the
`agent_performance` map omits every agent name that has no ledger entry. -/
theorem stats_pure_view (o : Orchestrator) :
    (get_orchestrator_stats o).total_requests = o.history.length
    ∧ (get_orchestrator_stats o).recent_activity =
        (o.history.drop (o.history.length - 10)).map
          (fun r => ⟨r.query, r.agent, r.success, r.timestamp⟩)
    ∧ ∀ name, (∀ r ∈ o.history, r.agent ≠ name) →
        (get_orchestrator_stats o).agent_performance.lookup name = none := by
  unfold get_orchestrator_stats
  by_cases h : o.history = []
  · rw [if_pos h]
    refine ⟨by rw [h]; rfl, by rw [h]; rfl, ?_⟩
    intro name _
    rfl
  · rw [if_neg h]
    refine ⟨rfl, rfl, ?_⟩
    intro name hno
    induction o.agents with
    | nil => rfl
    | cons p rest ih =>
      rw [List.filterMap_cons]
      dsimp only
      rcases hfil : o.history.filter (fun r => r.agent == p.1) with _ | ⟨r0, rtail⟩
      · rw [if_pos hfil]
        exact ih
      · have hne : p.1 ≠ name := by
          have hr0 : r0 ∈ o.history.filter (fun r => r.agent == p.1) := by
            rw [hfil]
            exact List.mem_cons_self r0 rtail
          have hpair := List.mem_filter.mp hr0
          have hag : r0.agent = p.1 := by simpa using hpair.2
          rw [← hag]
          exact hno r0 hpair.1
        rw [if_neg (by rw [hfil]; exact List.cons_ne_nil r0 rtail)]
        dsimp only
        rw [List.lookup_cons]
        rw [show (name == p.1) = false from beq_eq_false_iff_ne.mpr (Ne.symm hne)]
        exact ih

/-- An orchestrator with one agent and a one-record ledger. -/
def oHist : Orchestrator := ⟨[("ok", agentOK)], [⟨"qq", "ok", true, 5⟩]⟩

/-- Witness for C9 at a concrete nonempty ledger and an absent agent name. -/
theorem stats_pure_view_witness :
    (get_orchestrator_stats oHist).total_requests = oHist.history.length
    ∧ (get_orchestrator_stats oHist).recent_activity =
        (oHist.history.drop (oHist.history.length - 10)).map
          (fun r => ⟨r.query, r.agent, r.success, r.timestamp⟩)
    ∧ (get_orchestrator_stats oHist).agent_performance.lookup "absent" = none :=
  ⟨(stats_pure_view oHist).1, (stats_pure_view oHist).2.1,
   (stats_pure_view oHist).2.2 "absent" (by
     intro r hr
     have hr' : r = ⟨"qq", "ok", true, 5⟩ := List.mem_singleton.mp hr
     rw [hr']
     decide)⟩
